import Mathlib

/-!
Verification of the AnniversaryAPI authentication core against its
natural-language specification.

Shallow embedding conventions used throughout this file:
* Go strings are embedded either as Lean `String` (when only compared for
  equality) or as `List Char` (when the code indexes, slices or parses them);
  Go byte slices are `List Nat` with every element `< 256`.
* Go machine integers are `Nat`/`Int`; where the Go type bounds matter
  (`uint32`, `uint8`) the bound appears as an explicit hypothesis or check.
* Fallible Go code returns `Option`/`Except`.
* Randomness (salts) and infrastructure failures (entropy, SQLite errors)
  are passed in as explicit parameters, so every definition is a pure
  function of its inputs.
-/

/- ## Float64 model

JSON has no integer type: the `dgrijalva/jwt-go` library decodes every
numeric claim as a Go `float64`.  The source converts the decoded
`float64` back to `int` by plain truncating conversion (`int(userID)` in
`validateToken`).  We model the two conversions the source exercises:

* `f64RoundInt n` — the value of the `float64` nearest to the integer `n`
  (round to nearest, ties to even), i.e. what decoding the JSON numeral of
  `n` yields.  Overflow to infinity (beyond 2^1024) is not modelled; the
  claims only use this through the exact-representability hypothesis or at
  small concrete values.
* `F64` — a dyadic value `m * 2^e`, enough to describe every finite
  `float64`; `F64.toIntTrunc` is Go's `int(f)` truncation toward zero. -/

/-- Round a natural number to the nearest 53-bit-significand value
(ties to even), the value the nearest `float64` holds. -/
def f64RoundNat (n : Nat) : Nat :=
  if n ≤ 2 ^ 53 then n
  else
    let k := n.log2
    let ulp := 2 ^ (k - 52)
    let q := n / ulp
    let r := n % ulp
    if 2 * r < ulp then q * ulp
    else if 2 * r > ulp then (q + 1) * ulp
    else if q % 2 = 0 then q * ulp else (q + 1) * ulp

/-- The integer value of the `float64` nearest to the integer `n`. -/
def f64RoundInt (n : Int) : Int :=
  if 0 ≤ n then (f64RoundNat n.toNat : Int) else -(f64RoundNat (-n).toNat : Int)

/-- A dyadic number `m * 2^e`: the value carried by a finite `float64`. -/
structure F64 where
  m : Int
  e : Int
  deriving DecidableEq, Repr

/-- The exact rational value of an `F64`. -/
def F64.toRat (f : F64) : ℚ := (f.m : ℚ) * (2 : ℚ) ^ f.e

/-- Go's `int(f)` conversion of a finite `float64`: truncation toward zero. -/
def F64.toIntTrunc (f : F64) : Int :=
  if 0 ≤ f.e then f.m * 2 ^ f.e.toNat else (f.m).tdiv (2 ^ (-f.e).toNat)

/-- The `float64` obtained by JSON-decoding the decimal numeral of the
integer `n` (an exact integer on the wire rounds to the nearest float). -/
def F64.ofInt (n : Int) : F64 := ⟨f64RoundInt n, 0⟩

/- ## TokenService: JWT issuance and validation

From `src/internal/auth/helpers.go` (`generateAndSendToken`,
`validateToken`) and the identical `validateToken` in
`src/internal/server/helpers.go`.  The `jwt-go` wire format (base64 of
JSON, HMAC-SHA256 signature) is modelled abstractly: a token carries its
header algorithm, its decoded claim set, and a signature value; signing
with a key produces the signature `(alg, claims, key)` and verification
succeeds exactly when the token's signature equals the one recomputed from
its contents and the server key.  Claim values are modelled post-JSON
decoding, which is how `validateToken` observes them: numbers are
`float64` (`F64`), strings are strings. -/

/-- JWT signing algorithms relevant to the source: the HMAC family that
`jwt.SigningMethodHMAC` covers, plus a non-HMAC representative used to
express the algorithm check. -/
inductive Alg
  | HS256
  | HS384
  | HS512
  | RS256
  deriving DecidableEq, Repr

/-- The `token.Method.(*jwt.SigningMethodHMAC)` type assertion of the
source key function: true exactly for the HMAC family. -/
def Alg.isHMAC : Alg → Bool
  | Alg.HS256 => true
  | Alg.HS384 => true
  | Alg.HS512 => true
  | Alg.RS256 => false

/-- A decoded JSON claim value as `jwt.MapClaims` holds it after parsing:
numbers are `float64`, strings are strings, everything else only matters
through failing both type assertions. -/
inductive JsonVal
  | jnum (f : F64)
  | jstr (s : String)
  | jbool (b : Bool)
  deriving DecidableEq, Repr

/-- A decoded claim set (`jwt.MapClaims`); keys are unique as in a JSON
object / Go map. -/
abbrev Claims := List (String × JsonVal)

/-- Map lookup on a claim set (first match; keys are unique). -/
def claimsLookup (cs : Claims) (k : String) : Option JsonVal :=
  match cs with
  | [] => none
  | (k', v) :: rest => if k' = k then some v else claimsLookup rest k

/-- A parsed JWT: header algorithm, decoded claims, and the signature,
modelled as the (algorithm, claims, key) triple it was computed from. -/
structure Jwt where
  alg : Alg
  claims : Claims
  sig : Alg × Claims × List Nat
  deriving DecidableEq, Repr

/-- `token.SignedString(key)`: sign the claim set with the server key. -/
def jwtSign (jwtKey : List Nat) (alg : Alg) (cs : Claims) : Jwt :=
  ⟨alg, cs, (alg, cs, jwtKey)⟩

/-- `db.User` from `src/pkg/db/users.go`. -/
structure User where
  ID : Int
  Username : String
  Password : String
  deriving DecidableEq, Repr

/-- `generateAndSendToken` (`src/internal/auth/helpers.go` lines 66-85):
build claims `username`, `user_id` from the user and sign with the server
key.  The integer id reaches the validator as the nearest `float64`
(JSON round trip), recorded here at the claim value. -/
def generateAndSendToken (jwtKey : List Nat) (user : User) : Jwt :=
  jwtSign jwtKey Alg.HS256
    [("username", JsonVal.jstr user.Username),
     ("user_id", JsonVal.jnum (F64.ofInt user.ID))]

/-- `validateToken` (`src/internal/auth/helpers.go` lines 88-153, and the
identical copy in `src/internal/server/helpers.go` lines 12-74): reject
non-HMAC algorithms, verify the signature against the server key, require
a `float64` `user_id` claim and a string `username` claim, and rebuild the
user with `int(userID)` truncation.  `none` is the 401/abort path. -/
def validateToken (jwtKey : List Nat) (tok : Jwt) : Option User :=
  if !tok.alg.isHMAC then none
  else if tok.sig ≠ (tok.alg, tok.claims, jwtKey) then none
  else
    match claimsLookup tok.claims "user_id" with
    | some (JsonVal.jnum f) =>
      match claimsLookup tok.claims "username" with
      | some (JsonVal.jstr u) => some ⟨F64.toIntTrunc f, u, ""⟩
      | _ => none
    | _ => none

/- ## RequestAuthenticator: bearer extraction

From `AuthMiddleware` (gin middleware) and the identical header handling
in `Refresh`.  `c.GetHeader` yields `""` for a missing header, so the
missing-header case is the empty list. -/

/-- The literal prefix `"Bearer "` the middleware requires. -/
def bearerLit : List Char := "Bearer ".data

/-- Outcome of the header-extraction phase of `AuthMiddleware`: either the
request is rejected with 401 (and aborted, no protected action), or the
extracted token is handed to `validateToken` unchanged. -/
inductive AuthMiddlewareStep
  | reject401
  | validateTok (tok : List Char)
  deriving DecidableEq, Repr

/-- The header logic of `AuthMiddleware` (lines 9-32 of the middleware
file): empty header, missing `"Bearer "` prefix, and empty remainder each
401; otherwise the remainder `authHeader[len(prefix):]` goes to token
validation. -/
def authMiddlewareExtract (authHeader : List Char) : AuthMiddlewareStep :=
  if authHeader = [] then AuthMiddlewareStep.reject401
  else if !(List.isPrefixOf bearerLit authHeader) then AuthMiddlewareStep.reject401
  else
    let tok := authHeader.drop bearerLit.length
    if tok = [] then AuthMiddlewareStep.reject401
    else AuthMiddlewareStep.validateTok tok

/- ## AccessGate: the calendar check of GetPicture

From `GetPicture` in the pictures service: access is denied (403) when

  time.Now().Day() != anniversaryDay
    && (time.Now().Month() != valentineDay && time.Now().Month() != valentineMonth)

The constants `anniversaryDay`, `valentineDay`, `valentineMonth` are
declared in a repository file not present under `src/`. -/

/-- Modelled from the spec: `valentineDay`, the day-of-month of
Valentine's Day (February 14); its declaration is in a constants file of
the pictures package missing from `src/`. -/
def valentineDay : Nat := 14

/-- Modelled from the spec: `valentineMonth`, the month of Valentine's Day
(February); its declaration is in a constants file of the pictures package
missing from `src/`. -/
def valentineMonth : Nat := 2

/-- The date condition of `GetPicture`, as the code writes it (months and
days as numbers, `time.Month` comparing promoted constants): the result is
`true` when the request is allowed to proceed, `false` on the 403 path.
`anniversaryDay` is the configured day-of-month constant (value unknown,
kept as a parameter). -/
def getPictureDateGate (anniversaryDay month day : Nat) : Bool :=
  !(day != anniversaryDay && (month != valentineDay && month != valentineMonth))

/- ## Theorems: token service, middleware, access gate -/

/-- Claim C1: for every principal whose user id survives the float64 round
trip exactly and whose username is non-empty, validating a token issued
with the same server secret succeeds and returns the same principal
(password field empty, as `validateToken` rebuilds only id and name). -/
theorem token_round_trip (jwtKey : List Nat) (user : User)
    (hid : f64RoundInt user.ID = user.ID) (hname : user.Username ≠ "") :
    validateToken jwtKey (generateAndSendToken jwtKey user) =
      some ⟨user.ID, user.Username, ""⟩ := by
  simp [validateToken, generateAndSendToken, jwtSign, claimsLookup, Alg.isHMAC,
    F64.ofInt, F64.toIntTrunc, hid]

/-- Witness for C1 at a concrete principal and key. -/
theorem token_round_trip_witness :
    validateToken [7] (generateAndSendToken [7] ⟨42, "alice", "pw"⟩) =
      some ⟨42, "alice", ""⟩ :=
  token_round_trip [7] ⟨42, "alice", "pw"⟩ (by decide) (by decide)

/-- Claim C4 (code bug witness): on February 15 with configured
anniversary day 22 — no anniversary-day match and not February 14 — the
date gate of `GetPicture` still lets the request proceed, because the
source compares the month (2) against `valentineDay` and `valentineMonth`
and never checks the day against 14; the claim requires a 403 denial. -/
theorem access_gate_feb15_grants :
    getPictureDateGate 22 2 15 = true ∧
      (15 : Nat) ≠ 22 ∧ ¬((2 : Nat) = valentineMonth ∧ (15 : Nat) = valentineDay) := by
  decide

/-- Claim C7: the middleware hands a token to validation exactly for
header values that are the literal `"Bearer "` prefix followed by
non-empty content, and then the token is the remainder, unchanged; every
other header value (missing/empty, wrong prefix, empty remainder) is
rejected with 401 before any protected action. -/
theorem bearer_extraction (h t : List Char) :
    authMiddlewareExtract h = AuthMiddlewareStep.validateTok t ↔
      h = bearerLit ++ t ∧ t ≠ [] := by
  constructor
  · intro he
    by_cases h0 : h = []
    · rw [h0] at he
      simp [authMiddlewareExtract] at he
    · by_cases hp : List.isPrefixOf bearerLit h
      · obtain ⟨rest, hrest⟩ := List.isPrefixOf_iff_prefix.mp hp
        by_cases ht : h.drop bearerLit.length = []
        · simp [authMiddlewareExtract, h0, hp, ht] at he
        · simp [authMiddlewareExtract, h0, hp, ht] at he
          rw [← he]
          refine ⟨?_, ht⟩
          rw [← hrest, List.drop_left]
      · simp [authMiddlewareExtract, h0, hp] at he
  · rintro ⟨rfl, ht⟩
    have hp : List.isPrefixOf bearerLit (bearerLit ++ t) = true :=
      List.isPrefixOf_iff_prefix.mpr ⟨t, rfl⟩
    simp [authMiddlewareExtract, hp, List.drop_left, ht]

/-- Witness for C7 at a concrete header value. -/
theorem bearer_extraction_witness :
    authMiddlewareExtract (bearerLit ++ ['a', 'b']) =
      AuthMiddlewareStep.validateTok ['a', 'b'] :=
  (bearer_extraction (bearerLit ++ ['a', 'b']) ['a', 'b']).mpr ⟨rfl, by decide⟩

/-- The claim set of a well-signed token whose `user_id` is the
non-integral float 0.5 (= 1 * 2^-1). -/
def halfIdClaims : Claims :=
  [("username", JsonVal.jstr "alice"), ("user_id", JsonVal.jnum ⟨1, -1⟩)]

/-- Claim C8 counterexample: a token signed with the server key whose
`user_id` claim decodes to the float 0.5 — a value not exactly equal to
any integer id — is accepted by validation and silently truncated to id 0,
instead of being rejected as a missing/invalid claim. -/
theorem numeric_claim_truncation_counterexample :
    validateToken [7] (jwtSign [7] Alg.HS256 halfIdClaims) = some ⟨0, "alice", ""⟩ ∧
      F64.toRat ⟨1, -1⟩ ≠ ((0 : Int) : ℚ) := by
  constructor
  · decide
  · simp [F64.toRat]

/-- Claim C8 amended: validation accepts any `float64`-typed `user_id`
claim in a correctly signed HMAC token and converts it by Go `int`
truncation toward zero; no exactness or safe-integer-range check is
performed. -/
theorem numeric_claim_truncated (jwtKey : List Nat) (cs : Claims) (f : F64) (u : String)
    (hid : claimsLookup cs "user_id" = some (JsonVal.jnum f))
    (hu : claimsLookup cs "username" = some (JsonVal.jstr u)) :
    validateToken jwtKey (jwtSign jwtKey Alg.HS256 cs) =
      some ⟨F64.toIntTrunc f, u, ""⟩ := by
  simp [validateToken, jwtSign, Alg.isHMAC, hid, hu]

/-- Witness for the amended C8 at the concrete 0.5-id claim set. -/
theorem numeric_claim_truncated_witness :
    validateToken [7] (jwtSign [7] Alg.HS256 halfIdClaims) =
      some ⟨F64.toIntTrunc ⟨1, -1⟩, "alice", ""⟩ :=
  numeric_claim_truncated [7] halfIdClaims ⟨1, -1⟩ "alice" (by decide) (by decide)

/- ## Persistence collaborator: users and keys store

From `src/pkg/db/users.go` over the schema of `sqlite.go` (`users` has no
uniqueness constraint on `username`; `keys` holds plain strings):

* `ContainsKey` is `SELECT COUNT(*) ... WHERE key = ? > 0`;
* `GetUser` scans the first row with the given username (rowid order);
* `CreateUser` inserts a row (id assigned by storage) and then returns
  `GetUser(username)`;
* `DeleteKey` deletes every row holding the key.

SQLite serializes the individual statements, so each of these is one
atomic step; no transaction spans several of them in the source. -/

/-- A row of the `users` table. -/
structure DbUser where
  id : Int
  username : String
  password : String
  deriving DecidableEq, Repr

/-- The state of the two tables the registration flow touches. -/
structure Store where
  keys : List String
  users : List DbUser
  deriving DecidableEq, Repr

/-- `ContainsKey` (`src/pkg/db/users.go` lines 28-32). -/
def containsKey (st : Store) (k : String) : Bool :=
  st.keys.contains k

/-- `GetUser` (lines 17-21): first row in rowid order with the username;
`none` is the `sql.ErrNoRows` outcome. -/
def getUser (st : Store) (username : String) : Option DbUser :=
  st.users.find? (fun u => u.username == username)

/-- `CreateUser` (lines 9-15): insert a row with the next storage-assigned
id, then return `GetUser(username)` on the new state. -/
def createUser (st : Store) (username password : String) : Store × Option DbUser :=
  let st' : Store :=
    { st with users := st.users ++ [⟨(st.users.length : Int) + 1, username, password⟩] }
  (st', getUser st' username)

/-- `DeleteKey` (lines 34-37): delete every row holding the key. -/
def deleteKey (st : Store) (k : String) : Store :=
  { st with keys := st.keys.filter (fun k' => k' ≠ k) }

/- ## The Register handler, sequential semantics

From `Register` in the auth handlers file (lines 128-213 of that file).
Infrastructure failures the store model cannot produce by itself are
explicit oracle parameters: `bound` is the result of `ShouldBindJSON`
(`none` = bind error), `hashOk` is the entropy draw of `argon.Hash`,
`createOk`/`signOk` are the SQLite/signing error outcomes.  `hashed` is
the encoded hash `argon.Hash` would return. -/

/-- `strings.ToLower`, character-wise (faithful on the ASCII usernames
the claims exercise). -/
def strToLower (s : String) : String :=
  ⟨s.data.map Char.toLower⟩

/-- `RegisterRequest` from `src/internal/auth/types.go`. -/
structure RegisterRequest where
  Username : String
  Password : String
  Key : String
  deriving DecidableEq, Repr

/-- The response `Register` ends with, tagged by exit point. -/
inductive RegOutcome
  | badRequest
  | invalidKey
  | conflict
  | hashError
  | createError
  | signError
  | okToken
  deriving DecidableEq, Repr

/-- `Register`, single-request semantics: bind; `ContainsKey`; lowercase
the username; `GetUser`; `argon.Hash`; `CreateUser`; `DeleteKey`; sign the
token.  Returns the final store alongside the outcome. -/
def register (st : Store) (bound : Option RegisterRequest)
    (hashOk createOk signOk : Bool) (hashed : String) : Store × RegOutcome :=
  match bound with
  | none => (st, RegOutcome.badRequest)
  | some req =>
    if !containsKey st req.Key then (st, RegOutcome.invalidKey)
    else
      let username := (strToLower req.Username)
      match getUser st username with
      | some _ => (st, RegOutcome.conflict)
      | none =>
        if !hashOk then (st, RegOutcome.hashError)
        else if !createOk then (st, RegOutcome.createError)
        else
          let (st1, _user) := createUser st username hashed
          let st2 := deleteKey st1 req.Key
          if !signOk then (st2, RegOutcome.signError)
          else (st2, RegOutcome.okToken)

/- ## Two concurrent registrations, interleaved semantics

Each request is served by an independent worker; only the individual
store statements are atomic.  A thread is the `Register` control flow cut
at its store operations; a schedule interleaves two threads. -/

/-- Program counter of an in-flight registration: before the key check,
before the username check, before `CreateUser`, before `DeleteKey`, or
finished (succeeded past every check, or failed at one). -/
inductive RegPC
  | atKeyCheck
  | atUserCheck
  | atCreate
  | atDelete
  | doneOk
  | failedKey
  | failedConflict
  deriving DecidableEq, Repr

/-- One in-flight registration attempt (already bound; hash oracle
inlined, as hashing touches no shared state). -/
structure RegThread where
  req : RegisterRequest
  hashed : String
  pc : RegPC
  deriving DecidableEq, Repr

/-- One atomic store step of a registration attempt, following the
statement order of `Register`. -/
def regStep (st : Store) (t : RegThread) : Store × RegThread :=
  match t.pc with
  | RegPC.atKeyCheck =>
    (st, { t with pc := if containsKey st t.req.Key then RegPC.atUserCheck else RegPC.failedKey })
  | RegPC.atUserCheck =>
    (st, { t with pc := if (getUser st (strToLower t.req.Username)).isSome
                        then RegPC.failedConflict else RegPC.atCreate })
  | RegPC.atCreate =>
    ((createUser st (strToLower t.req.Username) t.hashed).1, { t with pc := RegPC.atDelete })
  | RegPC.atDelete =>
    (deleteKey st t.req.Key, { t with pc := RegPC.doneOk })
  | _ => (st, t)

/-- Run two registration attempts under a schedule: `true` steps the
first thread, `false` the second. -/
def runSched (st : Store) (t1 t2 : RegThread) : List Bool → Store × RegThread × RegThread
  | [] => (st, t1, t2)
  | true :: rest =>
    let (st', t1') := regStep st t1
    runSched st' t1' t2 rest
  | false :: rest =>
    let (st', t2') := regStep st t2
    runSched st' t1 t2' rest

/- ## Theorems: registration flow -/

/-- Claim C3 (code bug witness): with a single registration key `"k"` in
the store, two concurrent registration attempts that both present `"k"`
can interleave (both key-existence checks before either delete) so that
BOTH run to completion: both create a user row and both finish past every
check — the key gates one check each but two accounts are created, where
the claim requires exactly one success and one invalid-key failure. -/
theorem registration_key_double_use :
    runSched ⟨["k"], []⟩
        ⟨⟨"Alice", "pw1", "k"⟩, "h1", RegPC.atKeyCheck⟩
        ⟨⟨"Bob", "pw2", "k"⟩, "h2", RegPC.atKeyCheck⟩
        [true, false, true, true, true, false, false, false] =
      (⟨[], [⟨1, "alice", "h1"⟩, ⟨2, "bob", "h2"⟩]⟩,
       ⟨⟨"Alice", "pw1", "k"⟩, "h1", RegPC.doneOk⟩,
       ⟨⟨"Bob", "pw2", "k"⟩, "h2", RegPC.doneOk⟩) := by
  decide

/-- Claim C10: in `Register`, every exit before `CreateUser` succeeds —
bind failure, invalid key, username conflict, hash failure, create
failure — leaves the store untouched (in particular the keys table), and
whenever the keys table did change, a user row had been appended first:
the key is only consumed after account creation. -/
theorem key_consumed_only_after_create (st : Store) (bound : Option RegisterRequest)
    (hashOk createOk signOk : Bool) (hashed : String) :
    (((register st bound hashOk createOk signOk hashed).2 = RegOutcome.badRequest ∨
      (register st bound hashOk createOk signOk hashed).2 = RegOutcome.invalidKey ∨
      (register st bound hashOk createOk signOk hashed).2 = RegOutcome.conflict ∨
      (register st bound hashOk createOk signOk hashed).2 = RegOutcome.hashError ∨
      (register st bound hashOk createOk signOk hashed).2 = RegOutcome.createError) →
        (register st bound hashOk createOk signOk hashed).1 = st) ∧
    ((register st bound hashOk createOk signOk hashed).1.keys ≠ st.keys →
      ∃ u, (register st bound hashOk createOk signOk hashed).1.users = st.users ++ [u]) := by
  rcases bound with _ | req
  · simp [register]
  · by_cases hk : containsKey st req.Key
    · rcases hgu : getUser st (strToLower req.Username) with _ | u
      · by_cases hh : hashOk
        · by_cases hc : createOk
          · by_cases hs : signOk <;>
              simp [register, hk, hgu, hh, hc, hs, createUser, deleteKey]
          · simp [register, hk, hgu, hh, hc]
        · simp [register, hk, hgu, hh]
      · simp [register, hk, hgu]
    · simp [register, hk]

/-- Witness for C10 at a concrete failing attempt (invalid key: store
holds no key, so registration fails and the store is unchanged). -/
theorem key_consumed_only_after_create_witness :
    (register ⟨[], []⟩ (some ⟨"Alice", "pw", "k"⟩) true true true "h").1 = ⟨[], []⟩ :=
  (key_consumed_only_after_create ⟨[], []⟩ (some ⟨"Alice", "pw", "k"⟩) true true true "h").1
    (Or.inr (Or.inl (by decide)))

/- ## GetPicture path handling

From `GetPicture`: `filePath := filepath.Join(svc.basePath, name)` and the
check `strings.HasPrefix(filePath, svc.basePath)`; failing the check is
the 400 path, passing it proceeds to stat/serve the file.  `filepath.Join`
on Unix joins the non-empty parts with `/` and applies `filepath.Clean`.
Paths are `List Char`; the base path the server configures is
`"images"`. -/

/-- Split a path at `/` separators (`""` parts for repeated slashes). -/
def splitSlash : List Char → List (List Char)
  | [] => [[]]
  | c :: rest =>
    if c = '/' then [] :: splitSlash rest
    else
      match splitSlash rest with
      | [] => [[c]]
      | p :: ps => (c :: p) :: ps

/-- One element step of `filepath.Clean`: skip empty and `.` elements,
resolve `..` against the output stack (kept reversed; a rooted path
absorbs `..` at the top, a relative one keeps it), push anything else. -/
def cleanStep (rooted : Bool) (acc : List (List Char)) (elem : List Char) : List (List Char) :=
  if elem = [] || elem = ['.'] then acc
  else if elem = ['.', '.'] then
    match acc with
    | [] => if rooted then [] else [['.', '.']]
    | a :: rest => if a = ['.', '.'] && !rooted then ['.', '.'] :: acc else rest
  else elem :: acc

/-- Interleave `/` between path elements (`strings.Join` with `/`). -/
def joinSlash : List (List Char) → List Char
  | [] => []
  | [p] => p
  | p :: ps => p ++ '/' :: joinSlash ps

/-- `filepath.Clean` for Unix paths: shortest lexical equivalent —
repeated separators, `.` and `..` elements resolved, `.` for an
empty result, leading `/` preserved. -/
def goClean (path : List Char) : List Char :=
  if path = [] then ['.']
  else
    let rooted := path.headI = '/'
    let out := ((splitSlash path).foldl (cleanStep rooted) []).reverse
    if rooted then '/' :: joinSlash out
    else if out = [] then ['.']
    else joinSlash out

/-- `filepath.Join` of two parts: empty parts are dropped, the rest joined
with `/` and cleaned; all-empty input yields `""`. -/
def goJoin (a b : List Char) : List Char :=
  if a = [] && b = [] then []
  else if a = [] then goClean b
  else if b = [] then goClean a
  else goClean (a ++ '/' :: b)

/-- Outcome of the path phase of `GetPicture`: 400 with no file served, or
proceed to stat and serve the joined path. -/
inductive PicPathStep
  | badPath400
  | proceed (filePath : List Char)
  deriving DecidableEq, Repr

/-- The path logic of `GetPicture`: join the query `name` onto the base
path and reject with 400 unless the result has the base path as a string
prefix. -/
def getPicturePathGate (basePath name : List Char) : PicPathStep :=
  let filePath := goJoin basePath name
  if !(List.isPrefixOf basePath filePath) then PicPathStep.badPath400
  else PicPathStep.proceed filePath

/-- A path lies outside a base directory when it is neither the base
itself nor below it (no `base ++ "/"` prefix). -/
def outsideBase (basePath p : List Char) : Bool :=
  !(p = basePath || List.isPrefixOf (basePath ++ ['/']) p)

/-- Claim C9 (code bug witness): for base directory `"images"` and query
name `"../images_secret/pic"`, the join resolves to
`"images_secret/pic"` — a path outside the base directory — yet the
string-prefix check accepts it and `GetPicture` proceeds toward serving
the file instead of answering 400. -/
theorem path_traversal_prefix_bypass :
    getPicturePathGate "images".data "../images_secret/pic".data =
        PicPathStep.proceed "images_secret/pic".data ∧
      outsideBase "images".data "images_secret/pic".data = true := by
  decide

/- ## PasswordHasher: Argon2 hash encoding and verification

From `Argon2.Hash` and `Argon2.Verify` in `pkg/crypto`.  Byte slices are
`List Nat` (elements `< 256`); the encoded hash is a `List Char`.  The
salt that `rand.Read` draws inside `Hash` is an explicit parameter.
`argon2.IDKey` itself (the memory-hard key derivation of
`golang.org/x/crypto/argon2`) is modelled by a cheap abstract computable
function; the claims about `Hash`/`Verify` depend only on it being a
deterministic function of its arguments that returns `keyLen` bytes,
which the model provides. -/

/-- Abstract computable model of `argon2.IDKey(password, salt, time,
memory, threads, keyLen)`: deterministic in all arguments and returns
exactly `keyLen` bytes.  The mixing formula is a stand-in; no claim
depends on it. -/
def argon2IDKey (password salt : List Nat) (time memory threads keyLen : Nat) : List Nat :=
  let seed := password.foldl (fun a b => a * 257 + b + 1) 7 +
    131 * salt.foldl (fun a b => a * 263 + b + 1) 11 +
    17 * time + 19 * memory + 23 * threads
  (List.range keyLen).map (fun i => (seed + 29 * i) % 256)

/-- `argon2.Version` of `golang.org/x/crypto/argon2`. -/
def argon2Version : Nat := 19

/-- `Argon2Config` (`Time`, `Memory` are `uint32`, `Threads` is `uint8`,
`KeyLen` is `uint32`). -/
structure Argon2Config where
  Time : Nat
  Memory : Nat
  Threads : Nat
  KeyLen : Nat
  deriving DecidableEq, Repr

/- ### base64.RawStdEncoding -/

/-- The standard base64 alphabet. -/
def b64Alphabet : List Char :=
  "ABCDEFGHIJKLMNOPQRSTUVWXYZabcdefghijklmnopqrstuvwxyz0123456789+/".data

/-- The character encoding a 6-bit group (out-of-range values never arise
in encoding; they map to a sentinel outside the alphabet). -/
def b64Char (i : Nat) : Char :=
  b64Alphabet.getD i '?'

/-- The 6-bit value of an alphabet character; `none` for a character
outside the alphabet (Go's `CorruptInputError`). -/
def b64Val (c : Char) : Option Nat :=
  b64Alphabet.findIdx? (fun c' => c' = c)

/-- `base64.RawStdEncoding.EncodeToString`: unpadded standard base64. -/
def b64Encode : List Nat → List Char
  | b1 :: b2 :: b3 :: rest =>
    b64Char (b1 / 4) :: b64Char ((b1 % 4) * 16 + b2 / 16) ::
      b64Char ((b2 % 16) * 4 + b3 / 64) :: b64Char (b3 % 64) :: b64Encode rest
  | [b1, b2] => [b64Char (b1 / 4), b64Char ((b1 % 4) * 16 + b2 / 16), b64Char ((b2 % 16) * 4)]
  | [b1] => [b64Char (b1 / 4), b64Char ((b1 % 4) * 16)]
  | [] => []

/-- `base64.RawStdEncoding.DecodeString`: groups of four characters yield
three bytes, a trailing group of three or two yields two or one (extra
bits dropped, as the non-strict Go decoder does); a trailing group of one
character, or any character outside the alphabet, is an error. -/
def b64Decode : List Char → Option (List Nat)
  | c1 :: c2 :: c3 :: c4 :: rest => do
    let n1 ← b64Val c1
    let n2 ← b64Val c2
    let n3 ← b64Val c3
    let n4 ← b64Val c4
    let tail ← b64Decode rest
    pure ((n1 * 4 + n2 / 16) :: ((n2 % 16) * 16 + n3 / 4) :: ((n3 % 4) * 64 + n4) :: tail)
  | [c1, c2, c3] => do
    let n1 ← b64Val c1
    let n2 ← b64Val c2
    let n3 ← b64Val c3
    pure [n1 * 4 + n2 / 16, (n2 % 16) * 16 + n3 / 4]
  | [c1, c2] => do
    let n1 ← b64Val c1
    let n2 ← b64Val c2
    pure [n1 * 4 + n2 / 16]
  | [_] => none
  | [] => some []

/- ### fmt.Sscanf for the formats "v=%d" and "m=%d,t=%d,p=%d" -/

/-- Decimal value of a digit character. -/
def digitVal (c : Char) : Nat := c.toNat - 48

/-- Take the longest digit prefix (what the `%d` verb consumes). -/
def takeDigits : List Char → List Char × List Char
  | [] => ([], [])
  | c :: rest =>
    if c.isDigit then
      let (ds, r) := takeDigits rest
      (c :: ds, r)
    else ([], c :: rest)

/-- The value of a digit string, most significant first. -/
def digitsToNat (ds : List Char) : Nat :=
  ds.foldl (fun a c => a * 10 + digitVal c) 0

/-- `%d` into an unsigned integer: skip spaces, require at least one
digit, reject values at or above `bound` (Go's out-of-range error). -/
def scanUint (bound : Nat) (s : List Char) : Option (Nat × List Char) :=
  let s' := s.dropWhile (fun c => c = ' ')
  match takeDigits s' with
  | ([], _) => none
  | (ds, rest) => if digitsToNat ds < bound then some (digitsToNat ds, rest) else none

/-- `%d` into a Go `int` (64-bit): skip spaces, optional sign, at least
one digit, `int64` range. -/
def scanInt (s : List Char) : Option (Int × List Char) :=
  match s.dropWhile (fun c => c = ' ') with
  | [] => none
  | c :: t =>
    if c = '-' then
      match takeDigits t with
      | ([], _) => none
      | (ds, rest) =>
        if digitsToNat ds ≤ 2 ^ 63 then some (-(digitsToNat ds : Int), rest) else none
    else if c = '+' then
      match takeDigits t with
      | ([], _) => none
      | (ds, rest) =>
        if digitsToNat ds < 2 ^ 63 then some ((digitsToNat ds : Int), rest) else none
    else
      match takeDigits (c :: t) with
      | ([], _) => none
      | (ds, rest) =>
        if digitsToNat ds < 2 ^ 63 then some ((digitsToNat ds : Int), rest) else none

/-- Expect one literal (non-space) format character. -/
def expectChar (c : Char) : List Char → Option (List Char)
  | x :: rest => if x = c then some rest else none
  | [] => none

/-- `fmt.Sscanf(s, "v=%d", &version)` with `version` a Go `int`: the
parsed version (trailing input is ignored, as `Sscanf` ignores it). -/
def sscanfV (s : List Char) : Option Int :=
  match expectChar 'v' s with
  | none => none
  | some s1 =>
    match expectChar '=' s1 with
    | none => none
    | some s2 =>
      match scanInt s2 with
      | none => none
      | some (v, _) => some v

/-- `fmt.Sscanf(s, "m=%d,t=%d,p=%d", &Memory, &Time, &Threads)` with
`Memory`, `Time` `uint32` and `Threads` `uint8`: the parsed
(memory, time, threads) triple. -/
def sscanfMTP (s : List Char) : Option (Nat × Nat × Nat) :=
  match expectChar 'm' s with
  | none => none
  | some s1 =>
    match expectChar '=' s1 with
    | none => none
    | some s2 =>
      match scanUint (2 ^ 32) s2 with
      | none => none
      | some (memory, s3) =>
        match expectChar ',' s3 with
        | none => none
        | some s4 =>
          match expectChar 't' s4 with
          | none => none
          | some s5 =>
            match expectChar '=' s5 with
            | none => none
            | some s6 =>
              match scanUint (2 ^ 32) s6 with
              | none => none
              | some (time, s7) =>
                match expectChar ',' s7 with
                | none => none
                | some s8 =>
                  match expectChar 'p' s8 with
                  | none => none
                  | some s9 =>
                    match expectChar '=' s9 with
                    | none => none
                    | some s10 =>
                      match scanUint (2 ^ 8) s10 with
                      | none => none
                      | some (threads, _) => some (memory, time, threads)

/- ### Decimal rendering (fmt.Sprintf %d of unsigned values) -/

/-- Digits of `n`, most significant first, by fuel-bounded recursion
(`fuel ≥ n` suffices). -/
def decRenderAux : Nat → Nat → List Char
  | 0, _ => []
  | fuel + 1, n =>
    if n = 0 then []
    else decRenderAux fuel (n / 10) ++ [Char.ofNat (48 + n % 10)]

/-- `fmt.Sprintf("%d", n)` for an unsigned value. -/
def decRender (n : Nat) : List Char :=
  if n = 0 then ['0'] else decRenderAux n n

/- ### Split on the dollar delimiter (strings.Split) -/

/-- `strings.Split` at a one-character separator. -/
def splitOnChar (sep : Char) : List Char → List (List Char)
  | [] => [[]]
  | c :: rest =>
    if c = sep then [] :: splitOnChar sep rest
    else
      match splitOnChar sep rest with
      | [] => [[c]]
      | p :: ps => (c :: p) :: ps

/- ### Hash and Verify -/

/-- `Argon2.Hash` (Verify's counterpart, lines 32-46 of the crypto file):
derive the digest and render
`$argon2id$v=<version>$m=<M>,t=<T>,p=<P>$<b64 salt>$<b64 digest>`.
The salt `rand.Read` fills is the `salt` parameter. -/
def argon2Hash (cfg : Argon2Config) (salt password : List Nat) : List Char :=
  let hash := argon2IDKey password salt cfg.Time cfg.Memory cfg.Threads cfg.KeyLen
  '$' :: ("argon2id".data ++ '$' :: (("v=".data ++ decRender argon2Version)
    ++ '$' :: (("m=".data ++ decRender cfg.Memory ++ (",t=".data ++ decRender cfg.Time
      ++ (",p=".data ++ decRender cfg.Threads)))
    ++ '$' :: (b64Encode salt ++ '$' :: b64Encode hash))))

/-- Line 75 of `Argon2.Verify`: the digest length recovered from the
character length of the base64 digest field
(`uint32(len(parts[5]) * 3 / 4)`). -/
def verifyDerivedKeyLen (digestField : List Char) : Nat :=
  digestField.length * 3 / 4

/-- The error exits of `Argon2.Verify`, in source order. -/
inductive VerifyErr
  | badFormat
  | badVersion
  | badParams
  | badSalt
  deriving DecidableEq, Repr

/-- `Argon2.Verify` (lines 49-82): split at `$` expecting six fields,
parse version and cost parameters, decode the salt, recover the digest
length from the digest field's character length, re-derive and compare.
Note the receiver's own config is never consulted. -/
def argon2Verify (hash : List Char) (password : List Nat) : Except VerifyErr Bool :=
  let parts := splitOnChar '$' hash
  if parts.length ≠ 6 then Except.error VerifyErr.badFormat
  else
    match sscanfV (parts.getD 2 []) with
    | none => Except.error VerifyErr.badVersion
    | some _version =>
      match sscanfMTP (parts.getD 3 []) with
      | none => Except.error VerifyErr.badParams
      | some (memory, time, threads) =>
        match b64Decode (parts.getD 4 []) with
        | none => Except.error VerifyErr.badSalt
        | some salt =>
          let keyLen := verifyDerivedKeyLen (parts.getD 5 [])
          let newHash := argon2IDKey password salt time memory threads keyLen
          Except.ok (b64Encode newHash == parts.getD 5 [])

/- ## Supporting lemmas for the Hash/Verify round trip -/

/-- Splitting a string that opens with the separator yields a leading
empty field. -/
theorem splitOnChar_sep_cons (sep : Char) (l : List Char) :
    splitOnChar sep (sep :: l) = [] :: splitOnChar sep l := by
  simp [splitOnChar]

/-- `splitOnChar` never returns an empty field list. -/
theorem splitOnChar_ne_nil (sep : Char) (l : List Char) : splitOnChar sep l ≠ [] := by
  induction l with
  | nil => simp [splitOnChar]
  | cons c rest ih =>
    simp only [splitOnChar]
    by_cases hc : c = sep
    · simp [hc]
    · rw [if_neg hc]
      rcases h : splitOnChar sep rest with _ | ⟨p, ps⟩
      · exact absurd h ih
      · simp

/-- A separator-free string splits into the single field it is. -/
theorem splitOnChar_no_sep (sep : Char) (l : List Char) (h : sep ∉ l) :
    splitOnChar sep l = [l] := by
  induction l with
  | nil => rfl
  | cons c rest ih =>
    simp only [List.mem_cons, not_or] at h
    simp only [splitOnChar]
    rw [if_neg (fun hc => h.1 hc.symm), ih h.2]

/-- Splitting past a separator-free prefix peels off that prefix as one
field. -/
theorem splitOnChar_append (sep : Char) (xs ys : List Char) (h : sep ∉ xs) :
    splitOnChar sep (xs ++ sep :: ys) = xs :: splitOnChar sep ys := by
  induction xs with
  | nil => simp [splitOnChar_sep_cons]
  | cons c xs ih =>
    simp only [List.mem_cons, not_or] at h
    simp only [List.cons_append, splitOnChar, List.append_eq]
    rw [if_neg (fun hc => h.1 hc.symm), ih h.2]

/-- Decimal digit characters evaluate to their value. -/
theorem digitVal_ofNat : ∀ d, d < 10 → digitVal (Char.ofNat (48 + d)) = d := by decide

/-- Decimal digit characters satisfy `isDigit`. -/
theorem isDigit_ofNat : ∀ d, d < 10 → (Char.ofNat (48 + d)).isDigit = true := by decide

/-- Every character `decRenderAux` emits is a digit. -/
theorem decRenderAux_digits (fuel : Nat) :
    ∀ n, ∀ c ∈ decRenderAux fuel n, c.isDigit = true := by
  induction fuel with
  | zero => intro n c hc; simp [decRenderAux] at hc
  | succ fuel ih =>
    intro n c hc
    simp only [decRenderAux] at hc
    by_cases h0 : n = 0
    · simp [h0] at hc
    · rw [if_neg h0] at hc
      rcases List.mem_append.mp hc with h | h
      · exact ih _ _ h
      · simp only [List.mem_singleton] at h
        subst h
        exact isDigit_ofNat _ (Nat.mod_lt _ (by norm_num))

/-- Every character of a rendered decimal is a digit. -/
theorem decRender_digits (n : Nat) : ∀ c ∈ decRender n, c.isDigit = true := by
  intro c hc
  unfold decRender at hc
  by_cases h0 : n = 0
  · simp [h0] at hc
    subst hc
    decide
  · rw [if_neg h0] at hc
    exact decRenderAux_digits n n c hc

/-- A rendered decimal is never empty. -/
theorem decRender_ne_nil (n : Nat) : decRender n ≠ [] := by
  unfold decRender
  by_cases h0 : n = 0
  · simp [h0]
  · rw [if_neg h0]
    rcases n with _ | m
    · exact absurd rfl h0
    · simp [decRenderAux]

/-- Value of the digits `decRenderAux` emits, with accumulator. -/
theorem decRenderAux_foldl (fuel : Nat) :
    ∀ n a, n ≤ fuel →
      (decRenderAux fuel n).foldl (fun x c => x * 10 + digitVal c) a =
        a * 10 ^ (decRenderAux fuel n).length + n := by
  induction fuel with
  | zero =>
    intro n a h
    interval_cases n
    simp [decRenderAux]
  | succ fuel ih =>
    intro n a h
    by_cases h0 : n = 0
    · simp [decRenderAux, h0]
    · have hdiv : n / 10 ≤ fuel := by omega
      simp only [decRenderAux, if_neg h0]
      rw [List.foldl_append, ih (n / 10) a hdiv]
      simp only [List.foldl_cons, List.foldl_nil, List.length_append, List.length_singleton]
      rw [digitVal_ofNat _ (Nat.mod_lt _ (by norm_num)), pow_succ]
      have hmod : n / 10 * 10 + n % 10 = n := by omega
      rw [Nat.add_mul, Nat.mul_assoc, Nat.add_assoc, hmod]

/-- Parsing the rendered decimal recovers the value. -/
theorem digitsToNat_decRender (n : Nat) : digitsToNat (decRender n) = n := by
  unfold digitsToNat decRender
  by_cases h0 : n = 0
  · subst h0
    decide
  · rw [if_neg h0, decRenderAux_foldl n n 0 (Nat.le_refl n)]
    simp

/-- Alphabet lookup inverts alphabet rendering on 6-bit values. -/
theorem b64Val_b64Char : ∀ i, i < 64 → b64Val (b64Char i) = some i := by decide

/-- No base64 alphabet character (nor the out-of-range sentinel) is the
dollar delimiter. -/
theorem b64Char_ne_dollar (i : Nat) : b64Char i ≠ '$' := by
  by_cases h : i < 64
  · exact (by decide : ∀ j, j < 64 → b64Char j ≠ '$') i h
  · unfold b64Char
    rw [List.getD_eq_default]
    · decide
    · have : b64Alphabet.length = 64 := by decide
      omega

/-- Every character of a base64 encoding comes from the alphabet map. -/
theorem mem_b64Encode (c : Char) (bs : List Nat) (h : c ∈ b64Encode bs) :
    ∃ i, c = b64Char i := by
  induction bs using b64Encode.induct with
  | case1 b1 b2 b3 rest ih =>
    simp only [b64Encode, List.mem_cons] at h
    rcases h with h | h | h | h | h
    · exact ⟨_, h⟩
    · exact ⟨_, h⟩
    · exact ⟨_, h⟩
    · exact ⟨_, h⟩
    · exact ih h
  | case2 b1 b2 =>
    simp only [b64Encode, List.mem_cons] at h
    rcases h with h | h | h | h
    · exact ⟨_, h⟩
    · exact ⟨_, h⟩
    · exact ⟨_, h⟩
    · simp at h
  | case3 b1 =>
    simp only [b64Encode, List.mem_cons] at h
    rcases h with h | h | h
    · exact ⟨_, h⟩
    · exact ⟨_, h⟩
    · simp at h
  | case4 => simp [b64Encode] at h

/-- A base64 encoding never contains the dollar delimiter. -/
theorem b64Encode_no_dollar (bs : List Nat) : '$' ∉ b64Encode bs := by
  intro hmem
  obtain ⟨i, hi⟩ := mem_b64Encode '$' bs hmem
  exact b64Char_ne_dollar i hi.symm

/-- Decoding inverts encoding on byte lists. -/
theorem b64_roundtrip (bs : List Nat) (hb : ∀ b ∈ bs, b < 256) :
    b64Decode (b64Encode bs) = some bs := by
  induction bs using b64Encode.induct with
  | case1 b1 b2 b3 rest ih =>
    have h1 : b1 < 256 := hb _ (by simp)
    have h2 : b2 < 256 := hb _ (by simp)
    have h3 : b3 < 256 := hb _ (by simp)
    simp only [b64Encode, b64Decode]
    rw [b64Val_b64Char _ (by omega), b64Val_b64Char _ (by omega),
      b64Val_b64Char _ (by omega), b64Val_b64Char _ (by omega),
      ih (fun b hbm => hb _ (by simp [hbm]))]
    simp only [Option.bind_eq_bind, Option.some_bind, pure, Option.some.injEq,
      List.cons.injEq]
    refine ⟨by omega, by omega, by omega, trivial⟩
  | case2 b1 b2 =>
    have h1 : b1 < 256 := hb _ (by simp)
    have h2 : b2 < 256 := hb _ (by simp)
    simp only [b64Encode, b64Decode]
    rw [b64Val_b64Char _ (by omega), b64Val_b64Char _ (by omega),
      b64Val_b64Char _ (by omega)]
    simp only [Option.bind_eq_bind, Option.some_bind, pure, Option.some.injEq,
      List.cons.injEq]
    refine ⟨by omega, by omega, trivial⟩
  | case3 b1 =>
    have h1 : b1 < 256 := hb _ (by simp)
    simp only [b64Encode, b64Decode]
    rw [b64Val_b64Char _ (by omega), b64Val_b64Char _ (by omega)]
    simp only [Option.bind_eq_bind, Option.some_bind, pure, Option.some.injEq,
      List.cons.injEq]
    refine ⟨by omega, trivial⟩
  | case4 => rfl

/-- The character length of an unpadded base64 encoding recovers the byte
length through the `* 3 / 4` formula of `Verify`. -/
theorem b64Encode_length_mul3div4 (bs : List Nat) :
    (b64Encode bs).length * 3 / 4 = bs.length := by
  induction bs using b64Encode.induct <;> simp [b64Encode] <;> omega

/-- `argon2IDKey` returns exactly `keyLen` bytes. -/
theorem argon2IDKey_length (password salt : List Nat) (time memory threads keyLen : Nat) :
    (argon2IDKey password salt time memory threads keyLen).length = keyLen := by
  simp [argon2IDKey]

/-- The next character (if any) is not a digit, so `%d` stops in front of
it. -/
def headNotDigit (l : List Char) : Prop :=
  ∀ c t, l = c :: t → c.isDigit = false

/-- The empty remainder stops a digit scan. -/
theorem headNotDigit_nil : headNotDigit [] :=
  fun _ _ h => nomatch h

/-- A comma stops a digit scan. -/
theorem headNotDigit_comma (l : List Char) : headNotDigit (',' :: l) := by
  intro c t h
  cases h
  decide

/-- The `%d` verb consumes exactly a digit prefix. -/
theorem takeDigits_append (ds rest : List Char) (hd : ∀ c ∈ ds, c.isDigit = true)
    (hr : headNotDigit rest) : takeDigits (ds ++ rest) = (ds, rest) := by
  induction ds with
  | nil =>
    simp only [List.nil_append]
    cases rest with
    | nil => rfl
    | cons c t =>
      simp only [takeDigits]
      rw [hr c t rfl]
      simp
  | cons c ds ih =>
    simp only [List.cons_append, takeDigits, List.append_eq]
    rw [hd c (by simp), ih (fun x hx => hd x (by simp [hx]))]
    simp

/-- A digit character is not a space, minus or plus. -/
theorem isDigit_not_special (c : Char) (h : c.isDigit = true) :
    ¬(c = ' ') ∧ ¬(c = '-') ∧ ¬(c = '+') := by
  refine ⟨?_, ?_, ?_⟩ <;> intro hc <;> rw [hc] at h <;> exact absurd h (by decide)

/-- The first character of a rendered decimal is a digit. -/
theorem decRender_head (n : Nat) :
    ∃ c cs, decRender n = c :: cs ∧ c.isDigit = true := by
  rcases h : decRender n with _ | ⟨c, cs⟩
  · exact absurd h (decRender_ne_nil n)
  · exact ⟨c, cs, rfl, decRender_digits n c (by rw [h]; simp)⟩

/-- Scanning `%d` into a bounded unsigned integer after a rendered
decimal recovers the value and the remainder. -/
theorem scanUint_decRender (bound n : Nat) (rest : List Char) (hb : n < bound)
    (hr : headNotDigit rest) :
    scanUint bound (decRender n ++ rest) = some (n, rest) := by
  unfold scanUint
  obtain ⟨c, cs, hdc, hcd⟩ := decRender_head n
  obtain ⟨hcs, -, -⟩ := isDigit_not_special c hcd
  have hmem : ∀ x ∈ c :: cs, x.isDigit = true :=
    fun x hx => decRender_digits n x (hdc ▸ hx)
  have htd : takeDigits (c :: (cs ++ rest)) = (c :: cs, rest) := by
    rw [← List.cons_append]
    exact takeDigits_append _ _ hmem hr
  rw [hdc, List.cons_append, List.dropWhile_cons, if_neg (by simpa using hcs)]
  simp only [htd]
  rw [← hdc, digitsToNat_decRender, if_pos hb]

/-- Scanning `%d` into a Go `int` after a rendered decimal recovers the
value and the remainder. -/
theorem scanInt_decRender (n : Nat) (rest : List Char) (hb : n < 2 ^ 63)
    (hr : headNotDigit rest) :
    scanInt (decRender n ++ rest) = some ((n : Int), rest) := by
  unfold scanInt
  obtain ⟨c, cs, hdc, hcd⟩ := decRender_head n
  obtain ⟨hcs, hcm, hcp⟩ := isDigit_not_special c hcd
  have hmem : ∀ x ∈ c :: cs, x.isDigit = true :=
    fun x hx => decRender_digits n x (hdc ▸ hx)
  have htd : takeDigits (c :: (cs ++ rest)) = (c :: cs, rest) := by
    rw [← List.cons_append]
    exact takeDigits_append _ _ hmem hr
  rw [hdc, List.cons_append, List.dropWhile_cons, if_neg (by simpa using hcs)]
  simp only [if_neg hcm, if_neg hcp, htd]
  rw [← hdc, digitsToNat_decRender, if_pos hb]

/-- `Sscanf` of the version field of a rendered hash. -/
theorem sscanfV_decRender (n : Nat) (hb : n < 2 ^ 63) :
    sscanfV ("v=".data ++ decRender n) = some ((n : Int)) := by
  have h1 : ("v=".data ++ decRender n) = 'v' :: '=' :: decRender n := rfl
  rw [h1]
  simp only [sscanfV, expectChar, if_pos]
  rw [← List.append_nil (decRender n), scanInt_decRender n [] hb headNotDigit_nil]

/-- `Sscanf` of the cost-parameter field of a rendered hash. -/
theorem sscanfMTP_decRender (M T P : Nat) (hM : M < 2 ^ 32) (hT : T < 2 ^ 32)
    (hP : P < 2 ^ 8) :
    sscanfMTP ("m=".data ++ decRender M ++ (",t=".data ++ decRender T
      ++ (",p=".data ++ decRender P))) = some (M, T, P) := by
  have h1 : ("m=".data ++ decRender M ++ (",t=".data ++ decRender T
      ++ (",p=".data ++ decRender P)))
      = 'm' :: '=' :: (decRender M ++ (',' :: 't' :: '=' :: (decRender T
        ++ (',' :: 'p' :: '=' :: decRender P)))) := by
    simp [List.append_assoc]
  rw [h1]
  simp only [sscanfMTP, expectChar, if_pos]
  rw [scanUint_decRender _ M _ hM (headNotDigit_comma _)]
  simp only [expectChar, if_pos]
  rw [scanUint_decRender _ T _ hT (headNotDigit_comma _)]
  simp only [expectChar, if_pos]
  rw [← List.append_nil (decRender P), scanUint_decRender _ P _ hP headNotDigit_nil]

/-- The dollar-split of a rendered hash: exactly the six fields of the
`$argon2id$v=..$m=..,t=..,p=..$salt$digest` format. -/
theorem argon2Hash_split (cfg : Argon2Config) (salt password : List Nat) :
    splitOnChar '$' (argon2Hash cfg salt password) =
      [[], "argon2id".data,
       "v=".data ++ decRender argon2Version,
       "m=".data ++ decRender cfg.Memory ++ (",t=".data ++ decRender cfg.Time
         ++ (",p=".data ++ decRender cfg.Threads)),
       b64Encode salt,
       b64Encode (argon2IDKey password salt cfg.Time cfg.Memory cfg.Threads cfg.KeyLen)] := by
  have hdig : ∀ n, '$' ∉ decRender n := by
    intro n hmem
    exact absurd (decRender_digits n '$' hmem) (by decide)
  have hfield : ∀ (lit : List Char) (n : Nat), '$' ∉ lit → '$' ∉ lit ++ decRender n := by
    intro lit n hlit hmem
    rcases List.mem_append.mp hmem with h | h
    · exact hlit h
    · exact hdig n h
  simp only [argon2Hash]
  rw [splitOnChar_sep_cons]
  rw [splitOnChar_append _ _ _ (by decide)]
  rw [splitOnChar_append _ _ _ (hfield _ _ (by decide))]
  rw [splitOnChar_append _ _ _ ?hmtp]
  case hmtp =>
    intro hmem
    rcases List.mem_append.mp hmem with h | h
    · exact hfield _ _ (by decide) h
    · rcases List.mem_append.mp h with h' | h'
      · exact hfield _ _ (by decide) h'
      · exact hfield _ _ (by decide) h'
  rw [splitOnChar_append _ _ _ (b64Encode_no_dollar salt)]
  rw [splitOnChar_no_sep _ _ (b64Encode_no_dollar _)]

/- ## Theorems: password hasher -/

/-- Claim C2: verifying a freshly produced encoded hash against the same
password succeeds with no error, for every password, every 16-byte salt
the hasher may draw, and every configuration within the Go types
(`uint32` costs, `uint8` parallelism). -/
theorem hash_verify_round_trip (cfg : Argon2Config) (salt password : List Nat)
    (hm : cfg.Memory < 2 ^ 32) (ht : cfg.Time < 2 ^ 32) (hp : cfg.Threads < 2 ^ 8)
    (hsalt : ∀ b ∈ salt, b < 256) (hlen : salt.length = 16) :
    argon2Verify (argon2Hash cfg salt password) password = Except.ok true := by
  simp only [argon2Verify]
  rw [argon2Hash_split, if_neg (by simp)]
  simp only [List.getD_cons_succ, List.getD_cons_zero]
  rw [sscanfV_decRender argon2Version (by norm_num [argon2Version])]
  rw [sscanfMTP_decRender _ _ _ hm ht hp]
  rw [b64_roundtrip salt hsalt]
  simp only [verifyDerivedKeyLen, b64Encode_length_mul3div4, argon2IDKey_length]
  simp

/-- Witness for C2 at a concrete configuration, salt and password. -/
theorem hash_verify_round_trip_witness :
    argon2Verify
      (argon2Hash ⟨3, 65536, 2, 32⟩ [1, 2, 3, 4, 5, 6, 7, 8, 9, 10, 11, 12, 13, 14, 15, 16]
        [112, 119]) [112, 119] = Except.ok true :=
  hash_verify_round_trip ⟨3, 65536, 2, 32⟩ _ _ (by norm_num) (by norm_num) (by norm_num)
    (by decide) (by decide)

/-- Claim C5: on every hash `Hash` produces, the digest length `Verify`
recovers from the character length of the base64 digest field equals the
configured digest length used at hash time, so the comparison digest is
re-derived with the exact hash-time length (the `* 3 / 4` recovery is
exact for unpadded base64). -/
theorem digest_length_recovered (cfg : Argon2Config) (salt password : List Nat) :
    verifyDerivedKeyLen ((splitOnChar '$' (argon2Hash cfg salt password)).getD 5 []) =
      cfg.KeyLen := by
  rw [argon2Hash_split]
  simp only [List.getD_cons_succ, List.getD_cons_zero, verifyDerivedKeyLen]
  rw [b64Encode_length_mul3div4, argon2IDKey_length]

/-- A well-formed encoded hash: six dollar-delimited fields, a parsable
version field, parsable cost parameters, and a base64-decodable salt —
exactly the malformedness conditions the claim enumerates (the salt is
the only field `Verify` base64-decodes). -/
def wellFormedHash (hash : List Char) : Prop :=
  (splitOnChar '$' hash).length = 6 ∧
  (sscanfV ((splitOnChar '$' hash).getD 2 [])).isSome = true ∧
  (sscanfMTP ((splitOnChar '$' hash).getD 3 [])).isSome = true ∧
  (b64Decode ((splitOnChar '$' hash).getD 4 [])).isSome = true

instance (hash : List Char) : Decidable (wellFormedHash hash) :=
  inferInstanceAs (Decidable (_ ∧ _ ∧ _ ∧ _))

/-- Whether the candidate password matches a (well-formed) encoded hash:
re-derive a digest from the stored cost parameters, the decoded salt and
the digest length recovered from the digest field, and compare its base64
rendering against the stored digest field. -/
def hashMatches (hash : List Char) (password : List Nat) : Bool :=
  match sscanfMTP ((splitOnChar '$' hash).getD 3 []),
      b64Decode ((splitOnChar '$' hash).getD 4 []) with
  | some (memory, time, threads), some salt =>
    b64Encode (argon2IDKey password salt time memory threads
      (verifyDerivedKeyLen ((splitOnChar '$' hash).getD 5 []))) ==
      (splitOnChar '$' hash).getD 5 []
  | _, _ => false

/-- Claim C6: `Verify` returns an error exactly when the encoded hash is
malformed — wrong field count, unparsable version, unparsable cost
parameters, or salt base64 failure — and on every well-formed hash it
returns the plain comparison outcome with no error; in particular a
well-formed non-matching hash yields `(false, nil)`. -/
theorem verify_error_discipline (hash : List Char) (password : List Nat) :
    ((argon2Verify hash password).isOk = true ↔ wellFormedHash hash) ∧
    (wellFormedHash hash →
      argon2Verify hash password = Except.ok (hashMatches hash password)) := by
  unfold argon2Verify wellFormedHash hashMatches
  by_cases h6 : (splitOnChar '$' hash).length = 6
  · rw [if_neg (not_not_intro h6)]
    cases hv : sscanfV ((splitOnChar '$' hash).getD 2 []) with
    | none => simp [h6, Except.isOk, Except.toBool]
    | some v =>
      cases hmtp : sscanfMTP ((splitOnChar '$' hash).getD 3 []) with
      | none => simp [h6, Except.isOk, Except.toBool]
      | some trip =>
        obtain ⟨memory, time, threads⟩ := trip
        cases hsalt : b64Decode ((splitOnChar '$' hash).getD 4 []) with
        | none => simp [h6, Except.isOk, Except.toBool]
        | some salt => simp [h6, Except.isOk, Except.toBool]
  · rw [if_pos h6]
    simp [h6, Except.isOk, Except.toBool]

/-- A concrete well-formed encoded hash for the C6 witness. -/
def sampleHash : List Char := "$argon2id$v=19$m=8,t=1,p=1$AAAA$AAAA".data

/-- Witness for C6 at a concrete well-formed hash and password. -/
theorem verify_error_discipline_witness :
    wellFormedHash sampleHash ∧
      argon2Verify sampleHash [1, 2] = Except.ok (hashMatches sampleHash [1, 2]) :=
  ⟨by decide, (verify_error_discipline sampleHash [1, 2]).2 (by decide)⟩
